import Mathlib

/-!
# edit-server: the per-request edit workflow

A shallow embedding of `src/edit-server.go` (`EditHandler.ServeHTTP`,
`EditHandler.authorise`, `writeContentToFile`) and the properties of the
request workflow proved over it.

The handler talks to four external collaborators.  Each is modelled by the
documented contract of the Go call the source makes:

* the request body, an `io.Reader` on which the source calls `Read` once;
* the file system (`ioutil.TempFile`, `File.Write`, `ioutil.ReadFile`,
  `os.Remove`), a finite map from paths to regular files;
* the editor child process (`exec.Command(..).Run()`), an arbitrary
  transformation of the file system together with a result the source
  discards;
* the `http.ResponseWriter`.

Go strings are byte sequences; the embedding uses `String`.  The separator
`" "` and the prefix `"chrome-extension:"` are ASCII, so comparing and
splitting by character agrees with doing so by byte on UTF-8 text.
`make([]byte, n)` panics when `n` is negative or above the allocation limit of
the Go runtime (`maxAlloc`, 2^48 on linux/amd64), which the embedding takes
from the environment; a length within the limit is allocated.
-/

namespace EditServer

/-! ## Data model -/

abbrev Byte := UInt8

/-- The bytes `fmt.Fprintf` writes for a format string without remaining verbs. -/
def bytesOf (s : String) : List Byte := s.toUTF8.data.toList

/-- A regular file: its contents and whether the server may read it. -/
structure File where
  content : List Byte
  readable : Bool
deriving DecidableEq, Repr

/-- The file system: which path holds which file. -/
abbrev FS := String → Option File

/-- The external calls a request makes, in the order of the source. -/
inductive Call where
  | TempFile (result : Option String)
  | BodyRead (bufLen : Nat)
  | FileWrite (fname : String) (content : List Byte)
  | Exec (name : String) (args : List String)
  | ReadFile (fname : String)
  | Remove (fname : String)
deriving DecidableEq, Repr

/-- The world of one request: the file system and the calls made so far. -/
structure World where
  fs : FS
  trace : List Call

/-- The request body as an `io.Reader`: the bytes it holds, the most bytes one
`Read` call hands over, and whether that call reports a non-nil error
(`io.EOF` included, which a reader may return together with the last bytes). -/
structure Body where
  data : List Byte
  chunk : Nat
  err : Bool

/-- Request headers (`http.Header`): canonical key to values. -/
abbrev Header := String → List String

/-- The `http.Request` fields the handler reads. -/
structure Request where
  Method : String
  Header : Header
  Body : Body
  ContentLength : Int

/-- Source lines 51-56. -/
structure EditHandler where
  RequireExtensionOrigin : Bool
  EditorCmd : String

/-- What `editor.Run()` reports; the source discards it. -/
inductive EditorResult where
  | exited (code : Nat)
  | launchFailed
deriving DecidableEq, Repr

/-- The editor child process: given program name and arguments it changes the
file system in any way and reports a result. -/
abbrev Editor := String → List String → FS → FS × EditorResult

/-- The answers of the operating system and the Go runtime: the name
`ioutil.TempFile` creates (`none` when creation fails), how many bytes
`File.Write` can store, and the largest length `make([]byte, n)` allocates
(`maxAlloc` of the runtime; `makeslice` panics with `len out of range` above
it). -/
structure Env where
  tempName : Option String
  writeCap : Nat
  maxAlloc : Nat

/-- The `http.ResponseWriter`: the status line once sent, and the body so far. -/
structure ResponseWriter where
  status : Option Nat
  body : List Byte
deriving DecidableEq, Repr

/-- How `ServeHTTP` ends: it returns and the server completes the response, or
it panics. -/
inductive Outcome where
  | response (status : Nat) (body : List Byte)
  | panic
deriving DecidableEq, Repr

/-- The result of one request. -/
structure Result where
  outcome : Outcome
  world : World

/-! ## External calls -/

/-- `Header.Get`: the first value of the key, `""` when there is none. -/
def Header.Get (hd : Header) (key : String) : String := (hd key).headD ""

/-- `strings.HasPrefix` -/
def HasPrefix (s pre : String) : Bool := pre.data.isPrefixOf s.data

/-- Cut a character list at every character satisfying `p`. -/
def splitChars (p : Char → Bool) : List Char → List (List Char)
  | [] => [[]]
  | c :: cs =>
    if p c then [] :: splitChars p cs
    else match splitChars p cs with
      | [] => [[c]]
      | w :: ws => (c :: w) :: ws

/-- `strings.Split(s, sep)` for a one-character separator: the substrings
between the separators, `Count(s, sep) + 1` of them. -/
def Split (s : String) (sep : Char) : List String :=
  (splitChars (fun c => c == sep) s.data).map String.mk

/-- `ResponseWriter.WriteHeader`: sends the status line; a second call is
ignored. -/
def ResponseWriter.WriteHeader (w : ResponseWriter) (code : Nat) : ResponseWriter :=
  match w.status with
  | some _ => w
  | none => { w with status := some code }

/-- `ResponseWriter.Write`: sends status 200 first when no status was sent. -/
def ResponseWriter.Write (w : ResponseWriter) (b : List Byte) : ResponseWriter :=
  let w1 := w.WriteHeader 200
  { w1 with body := w1.body ++ b }

/-- The response the client gets when the handler returns: status 200 when
the handler sent none. -/
def ResponseWriter.finish (w : ResponseWriter) : Outcome :=
  .response (w.status.getD 200) w.body

/-- `Body.Read(p)` with `len(p) = bufLen`: at most `bufLen` bytes and at most
one chunk are stored at the front of the buffer, the rest stays zero. -/
def Body.Read (b : Body) (bufLen : Nat) : List Byte × Nat × Bool :=
  let got := b.data.take (min bufLen b.chunk)
  (got ++ List.replicate (bufLen - got.length) 0, got.length, b.err)

/-- `ioutil.TempFile`: creates an empty file under a new name. -/
def TempFile (env : Env) (s : World) : Option String × World :=
  match env.tempName with
  | none => (none, { s with trace := s.trace ++ [.TempFile none] })
  | some name =>
    (some name,
      { fs := fun p => if p = name then some ⟨[], true⟩ else s.fs p,
        trace := s.trace ++ [.TempFile (some name)] })

/-- `file.Write(content)`: stores as many bytes as the file system takes and
reports an error when that is not all of them. -/
def FileWrite (env : Env) (fname : String) (content : List Byte) (s : World) :
    Nat × Bool × World :=
  let stored := content.take env.writeCap
  (stored.length, decide (stored.length < content.length),
    { fs := fun p => if p = fname then some ⟨stored, true⟩ else s.fs p,
      trace := s.trace ++ [.FileWrite fname content] })

/-- `ioutil.ReadFile`: the contents of a readable file. -/
def ReadFile (fname : String) (s : World) : Option (List Byte) × World :=
  let s1 := { s with trace := s.trace ++ [.ReadFile fname] }
  match s.fs fname with
  | some f => if f.readable then (some f.content, s1) else (none, s1)
  | none => (none, s1)

/-- `os.Remove`: afterwards the path holds no file. -/
def Remove (fname : String) (s : World) : World :=
  { fs := fun p => if p = fname then none else s.fs p,
    trace := s.trace ++ [.Remove fname] }

/-- `exec.Command(name, args...).Run()` -/
def Run (editor : Editor) (name : String) (args : List String) (s : World) :
    EditorResult × World :=
  let r := editor name args s.fs
  (r.2, { fs := r.1, trace := s.trace ++ [.Exec name args] })

/-! ## The handler -/

/-- Source line 60. -/
def statusMessage : String :=
  "Server is up and running.  To use it, issue a POST request with the file to edit as the content body.\n"

/-- Source lines 116-124: `none` is the nil error. -/
def EditHandler.authorise (h : EditHandler) (req : Request) : Option String :=
  if h.RequireExtensionOrigin then
    let origin := req.Header.Get "Origin"
    if !HasPrefix origin "chrome-extension:" then
      some "unauthorized origin"
    else none
  else none

/-- Source lines 126-135: the result is `(n, err)`; `none` is the panic of
`make` on a length that is negative or above the allocation limit. -/
def writeContentToFile (env : Env) (req : Request) (fname : String) (s : World) :
    Option (Nat × Bool × World) :=
  if req.ContentLength < 0 ∨ (env.maxAlloc : Int) < req.ContentLength then none
  else
    let r := req.Body.Read req.ContentLength.toNat
    let content := r.1
    let bytesRead := r.2.1
    let err := r.2.2
    let s1 := { s with trace := s.trace ++ [.BodyRead req.ContentLength.toNat] }
    if err || decide ((bytesRead : Int) ≠ req.ContentLength) then
      some (0, err, s1)
    else
      some (FileWrite env fname content s1)

/-- The state of `ServeHTTP` when it reaches the editor call in source line
101: the temp file name, the program name and its arguments. -/
structure AtEditor where
  fname : String
  name : String
  args : List String
  world : World

/-- Source lines 58-101 up to the call of the editor: the request is answered
(or panics) earlier, or the handler is about to run the editor. -/
def ServeHTTP.prepare (h : EditHandler) (env : Env) (req : Request) (fs : FS) :
    Result ⊕ AtEditor :=
  let w : ResponseWriter := ⟨none, []⟩
  let s : World := ⟨fs, []⟩
  if req.Method ≠ "POST" then
    .inl ⟨(w.Write (bytesOf statusMessage)).finish, s⟩
  else
    match h.authorise req with
    | some err =>
      let w := w.WriteHeader 401
      .inl ⟨(w.Write (bytesOf ("Unauthorized: " ++ err ++ "\n"))).finish, s⟩
    | none =>
      match TempFile env s with
      | (none, s) => .inl ⟨(w.WriteHeader 500).finish, s⟩
      | (some fname, s) =>
        -- from here on the deferred `os.Remove(fname)` runs on every exit
        match writeContentToFile env req fname s with
        | none => .inl ⟨.panic, Remove fname s⟩
        | some (bytesWritten, _, s) =>
          if (bytesWritten : Int) ≠ req.ContentLength then
            .inl ⟨(w.WriteHeader 500).finish, Remove fname s⟩
          else
            let editorArgs := Split h.EditorCmd ' ' ++ [fname]
            match editorArgs with
            | [] => .inl ⟨.panic, Remove fname s⟩
            | name :: args => .inr ⟨fname, name, args, s⟩

/-- Source lines 101-113: run the editor, read the file back, answer. -/
def ServeHTTP.finish (editor : Editor) (a : AtEditor) : Result :=
  let w : ResponseWriter := ⟨none, []⟩
  let s := (Run editor a.name a.args a.world).2
  match ReadFile a.fname s with
  | (none, s) => ⟨(w.WriteHeader 500).finish, Remove a.fname s⟩
  | (some returnedContent, s) => ⟨(w.Write returnedContent).finish, Remove a.fname s⟩

/-- Source lines 58-114, run on the file system `fs`; the trace of the result
lists the external calls of this request. -/
def ServeHTTP (h : EditHandler) (env : Env) (editor : Editor) (req : Request)
    (fs : FS) : Result :=
  match ServeHTTP.prepare h env req fs with
  | .inl r => r
  | .inr a => ServeHTTP.finish editor a

/-! ## Terms of the statements -/

/-- `strings.Join` -/
def Join : List String → String → String
  | [], _ => ""
  | [a], _ => a
  | a :: b :: rest, sep => a ++ sep ++ Join (b :: rest) sep

/-- The whitespace-delimited words of a string, as the specification of the
editor invocation reads: the maximal runs of characters that are not white
space. -/
def specWords (s : String) : List String :=
  ((splitChars Char.isWhitespace s.data).filter (fun w => !w.isEmpty)).map String.mk

/-- `Join` on character lists. -/
def joinChars : List (List Char) → List Char → List Char
  | [], _ => []
  | [a], _ => a
  | a :: b :: rest, sep => a ++ sep ++ joinChars (b :: rest) sep

/-- The world right after `ioutil.TempFile` created `fname`. -/
def created (fs : FS) (fname : String) : World :=
  ⟨fun p => if p = fname then some ⟨[], true⟩ else fs p, [.TempFile (some fname)]⟩

/-- The bytes the one `Read` call of `writeContentToFile` obtains. -/
def bodyRead (req : Request) : List Byte :=
  req.Body.data.take (min req.ContentLength.toNat req.Body.chunk)

/-- What the handler answers for a given read-back of the temp file. -/
def answerOf (readBack : Option (List Byte)) : Outcome :=
  match readBack with
  | some content => .response 200 content
  | none => .response 500 []

/-! ## Sample inputs -/

/-- A file system without files. -/
def emptyFS : FS := fun _ => none

/-- The configuration `main` builds with the default flags. -/
def defaultHandler : EditHandler := ⟨true, "gvim -f"⟩

/-- Headers of a request sent by a browser extension. -/
def extensionHeader : Header :=
  fun k => if k = "Origin" then ["chrome-extension://textaid"] else []

/-- Headers of a request sent by a web page. -/
def pageHeader : Header :=
  fun k => if k = "Origin" then ["http://example.org"] else []

/-- Headers without an `Origin`. -/
def noHeader : Header := fun _ => []

/-- A two-byte body that arrives in one piece. -/
def hiBody : Body := ⟨[104, 105], 4096, false⟩

/-- An operating system that creates the temp file and stores what is written,
with the allocation limit of linux/amd64 (2^48). -/
def okEnv : Env := ⟨some "/tmp/edit-server-XXXX081", 4096, 281474976710656⟩

/-- An editor that leaves every file as it is and exits with status 0. -/
def noopEditor : Editor := fun _ _ fs => (fs, .exited 0)

/-- An editor that appends `!` to its last argument's file and exits with
status 0. -/
def bangEditor : Editor := fun _ args fs =>
  (fun p => if some p = args.getLast? then (fs p).map (fun f => ⟨f.content ++ [33], f.readable⟩)
    else fs p, .exited 0)

/-- The same two-byte body handed over one byte per `Read` call. -/
def slowBody : Body := ⟨[104, 105], 1, false⟩

/-- The same two-byte body handed over at once together with `io.EOF`. -/
def eofBody : Body := ⟨[104, 105], 4096, true⟩

/-- An editor that cannot be launched: the file system stays as it is. -/
def missingEditor : Editor := fun _ _ fs => (fs, .launchFailed)

/-- A `POST` with chunked transfer encoding: `net/http` reports the unknown
length as `ContentLength = -1`. -/
def chunkedRequest : Request := ⟨"POST", extensionHeader, hiBody, -1⟩

/-- A handler without origin restriction. -/
def openHandler : EditHandler := ⟨false, "gvim -f"⟩

/-! ## Basic facts -/

theorem hasPrefix_iff (s pre : String) :
    HasPrefix s pre = true ↔ ∃ rest : String, s = pre ++ rest := by
  unfold HasPrefix
  rw [List.isPrefixOf_iff_prefix]
  constructor
  · rintro ⟨t, ht⟩
    exact ⟨String.mk t, String.ext (by simpa using ht.symm)⟩
  · rintro ⟨rest, rfl⟩
    exact ⟨rest.data, by simp⟩

theorem authorise_eq_none_iff (h : EditHandler) (req : Request) :
    h.authorise req = none ↔
      (h.RequireExtensionOrigin = false ∨
        HasPrefix (req.Header.Get "Origin") "chrome-extension:" = true) := by
  cases hr : h.RequireExtensionOrigin <;>
    cases hp : HasPrefix (req.Header.Get "Origin") "chrome-extension:" <;>
    simp [EditHandler.authorise, hr, hp]

theorem authorise_eq_some (h : EditHandler) (req : Request) (e : String)
    (he : h.authorise req = some e) : e = "unauthorized origin" := by
  cases hr : h.RequireExtensionOrigin <;>
    cases hp : HasPrefix (req.Header.Get "Origin") "chrome-extension:" <;>
    simp [EditHandler.authorise, hr, hp] at he
  exact he.symm

/-! ## `Split` and `Join` -/

theorem splitChars_ne_nil (p : Char → Bool) (cs : List Char) : splitChars p cs ≠ [] := by
  cases cs with
  | nil => simp [splitChars]
  | cons c cs =>
    simp only [splitChars]
    split
    · simp
    · split <;> simp

theorem splitChars_free (p : Char → Bool) (cs : List Char) :
    ∀ w ∈ splitChars p cs, ∀ c ∈ w, p c = false := by
  induction cs with
  | nil => simp [splitChars]
  | cons c cs ih =>
    simp only [splitChars]
    by_cases hp : p c = true
    · simp only [hp, if_true, List.mem_cons]
      rintro w (rfl | hw)
      · simp
      · exact ih w hw
    · simp only [hp, if_false]
      cases hs : splitChars p cs with
      | nil => exact absurd hs (splitChars_ne_nil p cs)
      | cons w0 ws =>
        rw [hs] at ih
        intro w hw d hd
        rcases List.mem_cons.mp hw with hw | hw
        · rw [hw] at hd
          rcases List.mem_cons.mp hd with hd | hd
          · rw [hd]
            simpa using hp
          · exact ih w0 (by simp) d hd
        · exact ih w (by simp [hw]) d hd

theorem joinChars_cons_cons (c : Char) (w : List Char) (ws : List (List Char))
    (sep : List Char) :
    joinChars ((c :: w) :: ws) sep = c :: joinChars (w :: ws) sep := by
  cases ws <;> simp [joinChars]

theorem joinChars_splitChars (sep : Char) (cs : List Char) :
    joinChars (splitChars (fun c => c == sep) cs) [sep] = cs := by
  induction cs with
  | nil => simp [splitChars, joinChars]
  | cons c cs ih =>
    simp only [splitChars]
    by_cases hp : (c == sep) = true
    · simp only [hp, if_true]
      have hc : c = sep := by simpa using hp
      cases hs : splitChars (fun c => c == sep) cs with
      | nil => exact absurd hs (splitChars_ne_nil _ cs)
      | cons w0 ws =>
        rw [hs] at ih
        simp [joinChars, ih, hc]
    · simp only [hp, if_false]
      cases hs : splitChars (fun c => c == sep) cs with
      | nil => exact absurd hs (splitChars_ne_nil _ cs)
      | cons w0 ws =>
        rw [hs] at ih
        simp only [Bool.false_eq_true, if_false, joinChars_cons_cons, ih]

theorem splitChars_of_free (p : Char → Bool) (w : List Char)
    (hw : ∀ c ∈ w, p c = false) : splitChars p w = [w] := by
  induction w with
  | nil => simp [splitChars]
  | cons c w ih =>
    have hc : p c = false := hw c (by simp)
    simp [splitChars, hc, ih (fun d hd => hw d (by simp [hd]))]

theorem splitChars_append_sep (p : Char → Bool) (w : List Char) (sep : Char)
    (tail : List Char) (hw : ∀ c ∈ w, p c = false) (hsep : p sep = true) :
    splitChars p (w ++ sep :: tail) = w :: splitChars p tail := by
  induction w with
  | nil => simp [splitChars, hsep]
  | cons c w ih =>
    have hc : p c = false := hw c (by simp)
    simp [splitChars, hc, ih (fun d hd => hw d (by simp [hd]))]

theorem splitChars_joinChars (p : Char → Bool) (sep : Char) (hsep : p sep = true)
    (ws : List (List Char)) (hne : ws ≠ [])
    (hfree : ∀ w ∈ ws, ∀ c ∈ w, p c = false) :
    splitChars p (joinChars ws [sep]) = ws := by
  induction ws with
  | nil => exact absurd rfl hne
  | cons w rest ih =>
    cases rest with
    | nil => simpa [joinChars] using splitChars_of_free p w (hfree w (by simp))
    | cons w1 rest1 =>
      have ih1 := ih (by simp) (fun v hv => hfree v (by simp [hv]))
      simp only [joinChars, List.append_assoc, List.singleton_append]
      rw [splitChars_append_sep p w sep _ (hfree w (by simp)) hsep, ih1]

theorem join_data (ws : List String) (sep : String) :
    (Join ws sep).data = joinChars (ws.map String.data) sep.data := by
  induction ws with
  | nil => rfl
  | cons w rest ih =>
    cases rest with
    | nil => rfl
    | cons w1 rest1 =>
      simp only [Join, String.data_append, ih, List.map_cons, joinChars]

theorem join_split (s : String) : Join (Split s ' ') " " = s := by
  apply String.ext
  rw [join_data]
  simp only [Split, List.map_map]
  have : (String.data ∘ String.mk) = id := rfl
  rw [this, List.map_id]
  exact joinChars_splitChars ' ' s.data

theorem split_free (s : String) : ∀ w ∈ Split s ' ', ' ' ∉ w.data := by
  intro w hw
  simp only [Split, List.mem_map] at hw
  obtain ⟨cs, hcs, rfl⟩ := hw
  intro hmem
  have := splitChars_free _ _ cs hcs ' ' hmem
  simp at this

theorem split_join (ws : List String) (hne : ws ≠ [])
    (hfree : ∀ w ∈ ws, ' ' ∉ w.data) : Split (Join ws " ") ' ' = ws := by
  simp only [Split, join_data]
  rw [splitChars_joinChars (fun c => c == ' ') ' ' (by simp) _ (by simpa using hne)]
  · simp only [List.map_map]
    have : (String.mk ∘ String.data) = id := rfl
    rw [this, List.map_id]
  · intro w hw c hc
    simp only [List.mem_map] at hw
    obtain ⟨v, hv, rfl⟩ := hw
    have hne1 := hfree v hv
    by_contra hcon
    have : c = ' ' := by simpa using hcon
    exact hne1 (this ▸ hc)

theorem specWords_join (ws : List String)
    (hfree : ∀ w ∈ ws, w ≠ "" ∧ ∀ c ∈ w.data, c.isWhitespace = false) (hne : ws ≠ []) :
    specWords (Join ws " ") = ws := by
  simp only [specWords, join_data]
  rw [splitChars_joinChars Char.isWhitespace ' ' (by decide) _ (by simpa using hne)]
  · have hfilter : (ws.map String.data).filter (fun w => !w.isEmpty) = ws.map String.data := by
      rw [List.filter_eq_self]
      intro cs hcs
      simp only [List.mem_map] at hcs
      obtain ⟨v, hv, rfl⟩ := hcs
      have hv1 := (hfree v hv).1
      cases hd : v.data with
      | nil => exact absurd (String.ext (by simpa using hd)) hv1
      | cons c rest => rfl
    rw [hfilter, List.map_map]
    have : (String.mk ∘ String.data) = id := rfl
    rw [this, List.map_id]
  · intro w hw c hc
    simp only [List.mem_map] at hw
    obtain ⟨v, hv, rfl⟩ := hw
    exact (hfree v hv).2 c hc

/-! ## The exit paths of `ServeHTTP` -/

theorem split_append_ne_nil (cmd : String) (fname : String) :
    Split cmd ' ' ++ [fname] ≠ [] := by
  simp

theorem serve_not_post (h : EditHandler) (env : Env) (editor : Editor) (req : Request)
    (fs : FS) (hm : req.Method ≠ "POST") :
    ServeHTTP h env editor req fs =
      ⟨.response 200 (bytesOf statusMessage), ⟨fs, []⟩⟩ := by
  simp [ServeHTTP, ServeHTTP.prepare, hm, ResponseWriter.Write, ResponseWriter.WriteHeader,
    ResponseWriter.finish]

theorem serve_unauthorised (h : EditHandler) (env : Env) (editor : Editor) (req : Request)
    (fs : FS) (hm : req.Method = "POST") (e : String) (ha : h.authorise req = some e) :
    ServeHTTP h env editor req fs =
      ⟨.response 401 (bytesOf ("Unauthorized: " ++ e ++ "\n")), ⟨fs, []⟩⟩ := by
  simp [ServeHTTP, ServeHTTP.prepare, hm, ha, ResponseWriter.Write,
    ResponseWriter.WriteHeader, ResponseWriter.finish]

theorem serve_no_temp_file (h : EditHandler) (env : Env) (editor : Editor) (req : Request)
    (fs : FS) (hm : req.Method = "POST") (ha : h.authorise req = none)
    (ht : env.tempName = none) :
    ServeHTTP h env editor req fs =
      ⟨.response 500 [], ⟨fs, [.TempFile none]⟩⟩ := by
  simp [ServeHTTP, ServeHTTP.prepare, hm, ha, ht, TempFile, ResponseWriter.WriteHeader,
    ResponseWriter.finish]

theorem serve_panic (h : EditHandler) (env : Env) (editor : Editor) (req : Request)
    (fs : FS) (hm : req.Method = "POST") (ha : h.authorise req = none)
    (fname : String) (ht : env.tempName = some fname)
    (hw : writeContentToFile env req fname (created fs fname) = none) :
    ServeHTTP h env editor req fs = ⟨.panic, Remove fname (created fs fname)⟩ := by
  simp [created] at hw
  simp [ServeHTTP, ServeHTTP.prepare, hm, ha, ht, TempFile, hw, created]

theorem serve_mismatch (h : EditHandler) (env : Env) (editor : Editor) (req : Request)
    (fs : FS) (hm : req.Method = "POST") (ha : h.authorise req = none)
    (fname : String) (ht : env.tempName = some fname)
    (n : Nat) (err : Bool) (s : World)
    (hw : writeContentToFile env req fname (created fs fname) = some (n, err, s))
    (hn : (n : Int) ≠ req.ContentLength) :
    ServeHTTP h env editor req fs = ⟨.response 500 [], Remove fname s⟩ := by
  simp [created] at hw
  simp [ServeHTTP, ServeHTTP.prepare, hm, ha, ht, TempFile, hw, hn,
    ResponseWriter.WriteHeader, ResponseWriter.finish]

theorem prepare_edit (h : EditHandler) (env : Env) (req : Request)
    (fs : FS) (hm : req.Method = "POST") (ha : h.authorise req = none)
    (fname : String) (ht : env.tempName = some fname)
    (n : Nat) (err : Bool) (s : World)
    (hw : writeContentToFile env req fname (created fs fname) = some (n, err, s))
    (hn : (n : Int) = req.ContentLength) :
    ∃ name args, name :: args = Split h.EditorCmd ' ' ++ [fname] ∧
      ServeHTTP.prepare h env req fs = .inr ⟨fname, name, args, s⟩ := by
  simp [created] at hw
  cases hs : Split h.EditorCmd ' ' ++ [fname] with
  | nil => exact absurd hs (split_append_ne_nil _ _)
  | cons name args =>
    refine ⟨name, args, rfl, ?_⟩
    simp [ServeHTTP.prepare, hm, ha, ht, TempFile, hw, hn, hs]

theorem finish_eq (editor : Editor) (a : AtEditor) :
    ServeHTTP.finish editor a =
      ⟨(match (editor a.name a.args a.world.fs).1 a.fname with
        | some f => if f.readable then .response 200 f.content else .response 500 []
        | none => .response 500 []),
       ⟨fun p => if p = a.fname then none else (editor a.name a.args a.world.fs).1 p,
        a.world.trace ++ [.Exec a.name a.args, .ReadFile a.fname, .Remove a.fname]⟩⟩ := by
  unfold ServeHTTP.finish ReadFile Run Remove
  cases hf : (editor a.name a.args a.world.fs).1 a.fname with
  | none => simp [hf, ResponseWriter.WriteHeader, ResponseWriter.finish]
  | some f =>
    cases hr : f.readable <;>
      simp [hf, hr, ResponseWriter.WriteHeader, ResponseWriter.Write, ResponseWriter.finish]

theorem finish_outcome (editor : Editor) (a : AtEditor) :
    (ServeHTTP.finish editor a).outcome =
      answerOf (ReadFile a.fname (Run editor a.name a.args a.world).2).1 := by
  rw [finish_eq]
  simp only [ReadFile, Run, answerOf]
  cases hf : (editor a.name a.args a.world.fs).1 a.fname with
  | none => rfl
  | some file => cases hr : file.readable <;> simp [hr]

/-! ## `writeContentToFile` -/

theorem writeContentToFile_eq_none_iff (env : Env) (req : Request) (fname : String)
    (s : World) :
    writeContentToFile env req fname s = none ↔
      (req.ContentLength < 0 ∨ (env.maxAlloc : Int) < req.ContentLength) := by
  unfold writeContentToFile
  by_cases hc : req.ContentLength < 0 ∨ (env.maxAlloc : Int) < req.ContentLength
  · simp only [hc, if_true]
  · simp only [hc, if_false, iff_false]
    split <;> simp

theorem writeContentToFile_some_range (env : Env) (req : Request) (fname : String)
    (s : World) (r : Nat × Bool × World)
    (hw : writeContentToFile env req fname s = some r) :
    0 ≤ req.ContentLength ∧ req.ContentLength ≤ (env.maxAlloc : Int) := by
  by_contra hcon
  have hpanic : req.ContentLength < 0 ∨ (env.maxAlloc : Int) < req.ContentLength := by
    omega
  have := (writeContentToFile_eq_none_iff env req fname s).mpr hpanic
  rw [hw] at this
  exact absurd this (by simp)

theorem writeContentToFile_cases (env : Env) (req : Request) (fname : String)
    (s : World) (hc : 0 ≤ req.ContentLength)
    (hmax : req.ContentLength ≤ (env.maxAlloc : Int)) :
    ((req.Body.err = true ∨ ((bodyRead req).length : Int) ≠ req.ContentLength) ∧
      writeContentToFile env req fname s =
        some (0, req.Body.err, ⟨s.fs, s.trace ++ [.BodyRead req.ContentLength.toNat]⟩)) ∨
    ((req.Body.err = false ∧ ((bodyRead req).length : Int) = req.ContentLength) ∧
      writeContentToFile env req fname s =
        some (((bodyRead req).take env.writeCap).length,
          decide (((bodyRead req).take env.writeCap).length < (bodyRead req).length),
          ⟨fun p => if p = fname then some ⟨(bodyRead req).take env.writeCap, true⟩ else s.fs p,
           s.trace ++ [.BodyRead req.ContentLength.toNat, .FileWrite fname (bodyRead req)]⟩)) := by
  have hc1 : ¬ (req.ContentLength < 0 ∨ (env.maxAlloc : Int) < req.ContentLength) := by
    omega
  by_cases hm : req.Body.err = true ∨ ((bodyRead req).length : Int) ≠ req.ContentLength
  · left
    refine ⟨hm, ?_⟩
    have : (req.Body.err || decide (((bodyRead req).length : Int) ≠ req.ContentLength)) = true := by
      rcases hm with h1 | h1 <;> simp [h1]
    simp only [writeContentToFile, hc1, if_false, Body.Read]
    simp only [bodyRead] at this
    rw [if_pos this]
  · right
    push_neg at hm
    obtain ⟨h1, h2⟩ := hm
    have h1f : req.Body.err = false := by simpa using h1
    refine ⟨⟨h1f, h2⟩, ?_⟩
    have hlen : (bodyRead req).length = req.ContentLength.toNat := by omega
    have h2b := h2
    simp only [bodyRead] at h2b hlen
    simp [writeContentToFile, hc1, Body.Read, h1f, h2b, FileWrite, bodyRead, hlen, hc]

/-! ## The paths of an authorised `POST` -/

theorem serve_authorised_cases (h : EditHandler) (env : Env) (editor : Editor)
    (req : Request) (fs : FS) (hm : req.Method = "POST") (ha : h.authorise req = none) :
    (env.tempName = none ∧
      ServeHTTP h env editor req fs = ⟨.response 500 [], ⟨fs, [.TempFile none]⟩⟩) ∨
    (∃ fname, env.tempName = some fname ∧
      (((req.ContentLength < 0 ∨ (env.maxAlloc : Int) < req.ContentLength) ∧
          ServeHTTP h env editor req fs = ⟨.panic, Remove fname (created fs fname)⟩) ∨
        ((0 ≤ req.ContentLength ∧ req.ContentLength ≤ (env.maxAlloc : Int)) ∧ ∃ n err s,
          writeContentToFile env req fname (created fs fname) = some (n, err, s) ∧
          (((n : Int) ≠ req.ContentLength ∧
              ServeHTTP h env editor req fs = ⟨.response 500 [], Remove fname s⟩) ∨
            ((n : Int) = req.ContentLength ∧ ∃ name args,
              name :: args = Split h.EditorCmd ' ' ++ [fname] ∧
              ServeHTTP.prepare h env req fs = .inr ⟨fname, name, args, s⟩ ∧
              ServeHTTP h env editor req fs =
                ServeHTTP.finish editor ⟨fname, name, args, s⟩))))) := by
  cases ht : env.tempName with
  | none => exact Or.inl ⟨rfl, serve_no_temp_file h env editor req fs hm ha ht⟩
  | some fname =>
    refine Or.inr ⟨fname, rfl, ?_⟩
    cases hw : writeContentToFile env req fname (created fs fname) with
    | none =>
      exact Or.inl ⟨(writeContentToFile_eq_none_iff _ _ _ _).mp hw,
        serve_panic h env editor req fs hm ha fname ht hw⟩
    | some r =>
      obtain ⟨n, err, s⟩ := r
      have hc := writeContentToFile_some_range env req fname (created fs fname) _ hw
      refine Or.inr ⟨hc, n, err, s, rfl, ?_⟩
      by_cases hn : (n : Int) = req.ContentLength
      · right
        obtain ⟨name, args, hsplit, hprep⟩ :=
          prepare_edit h env req fs hm ha fname ht n err s hw hn
        exact ⟨hn, name, args, hsplit, hprep, by simp [ServeHTTP, hprep]⟩
      · left
        exact ⟨hn, serve_mismatch h env editor req fs hm ha fname ht n err s hw hn⟩

theorem writeContentToFile_world (env : Env) (req : Request) (fname : String) (fs : FS)
    (n : Nat) (err : Bool) (s : World)
    (hw : writeContentToFile env req fname (created fs fname) = some (n, err, s)) :
    (∃ c, s.fs fname = some ⟨c, true⟩) ∧ (∀ p, p ≠ fname → s.fs p = fs p) ∧
      (s.trace = [.TempFile (some fname), .BodyRead req.ContentLength.toNat] ∨
        s.trace = [.TempFile (some fname), .BodyRead req.ContentLength.toNat,
          .FileWrite fname (bodyRead req)]) := by
  have hc := writeContentToFile_some_range env req fname (created fs fname) _ hw
  rcases writeContentToFile_cases env req fname (created fs fname) hc.1 hc.2 with
    ⟨_, h1⟩ | ⟨_, h1⟩
  · rw [hw] at h1
    simp only [Option.some.injEq, Prod.mk.injEq] at h1
    obtain ⟨_, _, rfl⟩ := h1
    refine ⟨⟨[], by simp [created]⟩, fun p hp => by simp [created, hp], Or.inl ?_⟩
    simp [created]
  · rw [hw] at h1
    simp only [Option.some.injEq, Prod.mk.injEq] at h1
    obtain ⟨_, _, rfl⟩ := h1
    refine ⟨⟨(bodyRead req).take env.writeCap, by simp⟩,
      fun p hp => by simp [created, hp], Or.inr ?_⟩
    simp [created]

theorem serve_after_create (h : EditHandler) (env : Env) (editor : Editor)
    (req : Request) (fs : FS) (hm : req.Method = "POST") (ha : h.authorise req = none)
    (fname : String) (ht : env.tempName = some fname) :
    (ServeHTTP h env editor req fs).world.fs fname = none ∧
      ∃ mid, (ServeHTTP h env editor req fs).world.trace =
          .TempFile (some fname) :: (mid ++ [.Remove fname]) ∧
        ∀ r, Call.TempFile r ∉ mid := by
  rcases serve_authorised_cases h env editor req fs hm ha with
    ⟨ht0, _⟩ | ⟨f0, ht0, ⟨_, hs⟩ | ⟨_, n, err, s, hw, ⟨_, hs⟩ | ⟨_, name, args, _, _, hs⟩⟩⟩
  · rw [ht] at ht0
    exact absurd ht0 (by simp)
  all_goals
    rw [ht] at ht0
    obtain rfl : fname = f0 := Option.some.inj ht0
  · exact ⟨by simp [hs, Remove], [], by simp [hs, Remove, created], by simp⟩
  · rcases (writeContentToFile_world env req fname fs n err s hw).2.2 with h1 | h1
    · exact ⟨by simp [hs, Remove], [.BodyRead req.ContentLength.toNat],
        by simp [hs, Remove, h1], by simp⟩
    · exact ⟨by simp [hs, Remove],
        [.BodyRead req.ContentLength.toNat, .FileWrite fname (bodyRead req)],
        by simp [hs, Remove, h1], by simp⟩
  · rcases (writeContentToFile_world env req fname fs n err s hw).2.2 with h1 | h1
    · exact ⟨by simp [hs, finish_eq],
        [.BodyRead req.ContentLength.toNat, .Exec name args, .ReadFile fname],
        by simp [hs, finish_eq, h1], by simp⟩
    · exact ⟨by simp [hs, finish_eq],
        [.BodyRead req.ContentLength.toNat, .FileWrite fname (bodyRead req),
          .Exec name args, .ReadFile fname],
        by simp [hs, finish_eq, h1], by simp⟩

theorem tempFile_mem_trace (h : EditHandler) (env : Env) (editor : Editor)
    (req : Request) (fs : FS) (fname : String)
    (hc : Call.TempFile (some fname) ∈ (ServeHTTP h env editor req fs).world.trace) :
    req.Method = "POST" ∧ h.authorise req = none ∧ env.tempName = some fname := by
  by_cases hm : req.Method = "POST"
  swap
  · rw [serve_not_post h env editor req fs hm] at hc
    simp at hc
  cases ha : h.authorise req with
  | some e =>
    rw [serve_unauthorised h env editor req fs hm e ha] at hc
    simp at hc
  | none =>
    refine ⟨hm, rfl, ?_⟩
    cases ht : env.tempName with
    | none =>
      rw [serve_no_temp_file h env editor req fs hm ha ht] at hc
      simp at hc
    | some f0 =>
      obtain ⟨_, mid, htr, hmid⟩ := serve_after_create h env editor req fs hm ha f0 ht
      rw [htr] at hc
      have hmid1 := hmid (some fname)
      simp only [List.mem_cons, Call.TempFile.injEq, Option.some.injEq, List.mem_append,
        List.mem_singleton, reduceCtorEq, or_false, hmid1, List.not_mem_nil, false_or] at hc
      rw [hc]

theorem exec_mem_trace (h : EditHandler) (env : Env) (editor : Editor)
    (req : Request) (fs : FS) (name : String) (args : List String)
    (hx : Call.Exec name args ∈ (ServeHTTP h env editor req fs).world.trace) :
    ∃ fname, env.tempName = some fname ∧
      Call.TempFile (some fname) ∈ (ServeHTTP h env editor req fs).world.trace ∧
      name :: args = Split h.EditorCmd ' ' ++ [fname] := by
  by_cases hm : req.Method = "POST"
  swap
  · rw [serve_not_post h env editor req fs hm] at hx
    simp at hx
  cases ha : h.authorise req with
  | some e =>
    rw [serve_unauthorised h env editor req fs hm e ha] at hx
    simp at hx
  | none =>
    rcases serve_authorised_cases h env editor req fs hm ha with
      ⟨_, hs⟩ | ⟨fname, ht, ⟨_, hs⟩ | ⟨_, n, err, s, hw, ⟨_, hs⟩ | ⟨_, nm, ar, hsplit, _, hs⟩⟩⟩
    · rw [hs] at hx
      simp at hx
    · rw [hs] at hx
      simp [Remove, created] at hx
    · rw [hs] at hx
      rcases (writeContentToFile_world env req fname fs n err s hw).2.2 with h1 | h1 <;>
        simp [Remove, h1] at hx
    · have hmem : Call.TempFile (some fname) ∈ (ServeHTTP h env editor req fs).world.trace := by
        obtain ⟨_, mid, htr, _⟩ := serve_after_create h env editor req fs hm ha fname ht
        rw [htr]
        simp
      refine ⟨fname, ht, hmem, ?_⟩
      rw [hs, finish_eq] at hx
      rcases (writeContentToFile_world env req fname fs n err s hw).2.2 with h1 | h1 <;>
        · simp only [h1, List.cons_append, List.nil_append, List.mem_cons, reduceCtorEq,
            Call.Exec.injEq, List.mem_singleton, false_or, or_false, List.not_mem_nil] at hx
          rw [hx.1, hx.2]
          exact hsplit

theorem serve_panic_iff (h : EditHandler) (env : Env) (editor : Editor)
    (req : Request) (fs : FS) :
    (ServeHTTP h env editor req fs).outcome = .panic ↔
      (req.Method = "POST" ∧ h.authorise req = none ∧ env.tempName ≠ none ∧
        (req.ContentLength < 0 ∨ (env.maxAlloc : Int) < req.ContentLength)) := by
  by_cases hm : req.Method = "POST"
  swap
  · simp [serve_not_post h env editor req fs hm, hm]
  cases ha : h.authorise req with
  | some e => simp [serve_unauthorised h env editor req fs hm e ha]
  | none =>
    rcases serve_authorised_cases h env editor req fs hm ha with
      ⟨ht, hs⟩ | ⟨fname, ht, ⟨hneg, hs⟩ | ⟨hc, n, err, s, _, ⟨_, hs⟩ | ⟨_, name, args, _, _, hs⟩⟩⟩
    · simp [hs, ht]
    · simp [hs, ht, hm, hneg]
    · have hc1 : ¬ (req.ContentLength < 0 ∨ (env.maxAlloc : Int) < req.ContentLength) := by
        omega
      simp [hs, hc1]
    · rw [hs, finish_eq]
      have hc1 : ¬ (req.ContentLength < 0 ∨ (env.maxAlloc : Int) < req.ContentLength) := by
        omega
      simp only [hc1, and_false, iff_false]
      split
      · split <;> simp
      · simp

/-- For a declared length that `make` allocates (not negative, within the
allocation limit) the three failures are exactly the cases answered 500, and
every other authorised `POST` is answered 200 with the bytes read back. -/
theorem serve_status_of_allocated (h : EditHandler) (env : Env) (editor : Editor)
    (req : Request) (fs : FS) (hm : req.Method = "POST") (ha : h.authorise req = none)
    (hc : 0 ≤ req.ContentLength) (hmax : req.ContentLength ≤ (env.maxAlloc : Int)) :
    (env.tempName = none ∧
      ServeHTTP h env editor req fs = ⟨.response 500 [], ⟨fs, [.TempFile none]⟩⟩) ∨
    (∃ fname n err s, env.tempName = some fname ∧
      writeContentToFile env req fname (created fs fname) = some (n, err, s) ∧
      (((n : Int) ≠ req.ContentLength ∧
          (ServeHTTP h env editor req fs).outcome = .response 500 [] ∧
          ∀ name args, Call.Exec name args ∉ (ServeHTTP h env editor req fs).world.trace) ∨
        ((n : Int) = req.ContentLength ∧ ∃ a, ServeHTTP.prepare h env req fs = .inr a ∧
          ((ReadFile a.fname (Run editor a.name a.args a.world).2).1 = none ∧
              (ServeHTTP h env editor req fs).outcome = .response 500 [] ∨
            ∃ content, (ReadFile a.fname (Run editor a.name a.args a.world).2).1 = some content ∧
              (ServeHTTP h env editor req fs).outcome = .response 200 content)))) := by
  rcases serve_authorised_cases h env editor req fs hm ha with
    ⟨ht, hs⟩ | ⟨fname, ht, ⟨hneg, _⟩ | ⟨_, n, err, s, hw, ⟨hn, hs⟩ | ⟨hn, name, args, _, hp, hs⟩⟩⟩
  · exact Or.inl ⟨ht, hs⟩
  · omega
  · refine Or.inr ⟨fname, n, err, s, ht, hw, Or.inl ⟨hn, by rw [hs], ?_⟩⟩
    intro name args
    rcases (writeContentToFile_world env req fname fs n err s hw).2.2 with h1 | h1 <;>
      simp [hs, Remove, h1]
  · refine Or.inr ⟨fname, n, err, s, ht, hw, Or.inr ⟨hn, _, hp, ?_⟩⟩
    rw [hs, finish_outcome]
    cases hr : (ReadFile fname (Run editor name args s).2).1 with
    | none => exact Or.inl ⟨rfl, rfl⟩
    | some content => exact Or.inr ⟨content, rfl, rfl⟩

/-! ## The method check and the authorisation (C4, C3, C10) -/

/-- C4: a request whose method is not exactly `POST` is answered with status
200 and the fixed status message, whatever its headers, body, declared length
and the handler configuration; the file system is left as it was and no
external call (temp file, write, editor) is made. -/
theorem C4_not_post_status_message (h : EditHandler) (env : Env) (editor : Editor)
    (req : Request) (fs : FS) (hm : req.Method ≠ "POST") :
    (ServeHTTP h env editor req fs).outcome =
        .response 200 (bytesOf
          "Server is up and running.  To use it, issue a POST request with the file to edit as the content body.\n") ∧
      (ServeHTTP h env editor req fs).world.fs = fs ∧
      (ServeHTTP h env editor req fs).world.trace = [] := by
  rw [serve_not_post h env editor req fs hm]
  exact ⟨rfl, rfl, rfl⟩

theorem C4_not_post_status_message_witness :
    ("GET" : String) ≠ "POST" ∧
      (ServeHTTP defaultHandler okEnv bangEditor ⟨"GET", pageHeader, hiBody, -1⟩ emptyFS).outcome =
        .response 200 (bytesOf
          "Server is up and running.  To use it, issue a POST request with the file to edit as the content body.\n") ∧
      (ServeHTTP defaultHandler okEnv bangEditor ⟨"GET", pageHeader, hiBody, -1⟩ emptyFS).world.trace = [] :=
  ⟨by decide,
   (C4_not_post_status_message defaultHandler okEnv bangEditor
      ⟨"GET", pageHeader, hiBody, -1⟩ emptyFS (by decide)).1,
   (C4_not_post_status_message defaultHandler okEnv bangEditor
      ⟨"GET", pageHeader, hiBody, -1⟩ emptyFS (by decide)).2.2⟩

/-- C3: with `RequireExtensionOrigin` enabled, a `POST` whose `Origin` header
is absent or whose first value does not start with `chrome-extension:` is
answered with status 401 and the body `Unauthorized: unauthorized origin\n`;
the file system is left as it was and no external call (temp file, write,
editor) is made. -/
theorem C3_unauthorised_origin (h : EditHandler) (env : Env) (editor : Editor)
    (req : Request) (fs : FS) (hm : req.Method = "POST")
    (hr : h.RequireExtensionOrigin = true)
    (ho : req.Header "Origin" = [] ∨
      ∃ v rest, req.Header "Origin" = v :: rest ∧
        ¬ ∃ t : String, v = "chrome-extension:" ++ t) :
    (ServeHTTP h env editor req fs).outcome =
        .response 401 (bytesOf "Unauthorized: unauthorized origin\n") ∧
      (ServeHTTP h env editor req fs).world.fs = fs ∧
      (ServeHTTP h env editor req fs).world.trace = [] := by
  have hp : HasPrefix (req.Header.Get "Origin") "chrome-extension:" = false := by
    rcases ho with h0 | ⟨v, rest, hv, hn⟩
    · simp only [Header.Get, h0, List.headD_nil]
      decide
    · simp only [Header.Get, hv, List.headD_cons]
      cases hx : HasPrefix v "chrome-extension:"
      · rfl
      · exact absurd ((hasPrefix_iff _ _).mp hx) hn
  have ha : h.authorise req = some "unauthorized origin" := by
    simp [EditHandler.authorise, hr, hp]
  rw [serve_unauthorised h env editor req fs hm _ ha]
  exact ⟨rfl, rfl, rfl⟩

theorem C3_unauthorised_origin_witness :
    (ServeHTTP defaultHandler okEnv noopEditor ⟨"POST", pageHeader, hiBody, 2⟩ emptyFS).outcome =
        .response 401 (bytesOf "Unauthorized: unauthorized origin\n") ∧
      (ServeHTTP defaultHandler okEnv noopEditor ⟨"POST", pageHeader, hiBody, 2⟩ emptyFS).world.trace = [] :=
  have hq := C3_unauthorised_origin defaultHandler okEnv noopEditor
    ⟨"POST", pageHeader, hiBody, 2⟩ emptyFS rfl rfl
    (Or.inr ⟨"http://example.org", [], rfl, fun hx =>
      absurd ((hasPrefix_iff "http://example.org" "chrome-extension:").mpr hx) (by decide)⟩)
  ⟨hq.1, hq.2.2⟩

/-- C10: `authorise` returns no error exactly when `RequireExtensionOrigin` is
false or the first `Origin` value starts with `chrome-extension:` (compared
character by character, so case matters); hence with the restriction disabled
no `POST` is answered 401, and with it enabled a `POST` whose `Origin` starts
with the prefix goes on to the temp-file creation as its first external call. -/
theorem C10_authorise_exactly (h : EditHandler) (req : Request) :
    (h.authorise req = none ↔
      (h.RequireExtensionOrigin = false ∨
        ∃ t : String, req.Header.Get "Origin" = "chrome-extension:" ++ t)) ∧
    (∀ (env : Env) (editor : Editor) (fs : FS) (body : List Byte),
      req.Method = "POST" → h.RequireExtensionOrigin = false →
        (ServeHTTP h env editor req fs).outcome ≠ .response 401 body) ∧
    (∀ (env : Env) (editor : Editor) (fs : FS),
      req.Method = "POST" → h.RequireExtensionOrigin = true →
        (∃ t : String, req.Header.Get "Origin" = "chrome-extension:" ++ t) →
        ∃ rest, (ServeHTTP h env editor req fs).world.trace =
          Call.TempFile env.tempName :: rest) := by
  have hauth := authorise_eq_none_iff h req
  rw [hasPrefix_iff] at hauth
  refine ⟨hauth, ?_, ?_⟩
  · intro env editor fs body hm hr
    have ha : h.authorise req = none := hauth.mpr (Or.inl hr)
    rcases serve_authorised_cases h env editor req fs hm ha with
      ⟨_, hs⟩ | ⟨fname, _, ⟨_, hs⟩ | ⟨_, n, err, s, _, ⟨_, hs⟩ | ⟨_, name, args, _, _, hs⟩⟩⟩
    · simp [hs]
    · simp [hs]
    · simp [hs]
    · rw [hs, finish_eq]
      dsimp only
      split
      · split <;> simp
      · simp
  · intro env editor fs hm _ hp
    have ha : h.authorise req = none := hauth.mpr (Or.inr hp)
    rcases serve_authorised_cases h env editor req fs hm ha with
      ⟨ht, hs⟩ | ⟨fname, ht, ⟨_, hs⟩ | ⟨_, n, err, s, hw, ⟨_, hs⟩ | ⟨_, name, args, _, _, hs⟩⟩⟩
    · exact ⟨[], by simp [hs, ht]⟩
    · exact ⟨[.Remove fname], by simp [hs, ht, Remove, created]⟩
    · rcases (writeContentToFile_world env req fname fs n err s hw).2.2 with h1 | h1
      · exact ⟨_, by simp [hs, ht, Remove, h1]; rfl⟩
      · exact ⟨_, by simp [hs, ht, Remove, h1]; rfl⟩
    · rcases (writeContentToFile_world env req fname fs n err s hw).2.2 with h1 | h1
      · exact ⟨_, by simp [hs, ht, finish_eq, h1]; rfl⟩
      · exact ⟨_, by simp [hs, ht, finish_eq, h1]; rfl⟩

theorem C10_authorise_exactly_witness :
    defaultHandler.authorise ⟨"POST", extensionHeader, hiBody, 2⟩ = none ∧
      ∃ rest, (ServeHTTP defaultHandler okEnv noopEditor
          ⟨"POST", extensionHeader, hiBody, 2⟩ emptyFS).world.trace =
        Call.TempFile (some "/tmp/edit-server-XXXX081") :: rest :=
  ⟨(C10_authorise_exactly defaultHandler ⟨"POST", extensionHeader, hiBody, 2⟩).1.mpr
      (Or.inr ⟨"//textaid", by decide⟩),
   (C10_authorise_exactly defaultHandler ⟨"POST", extensionHeader, hiBody, 2⟩).2.2
      okEnv noopEditor emptyFS rfl rfl ⟨"//textaid", by decide⟩⟩

/-! ## The temp file (C2, C5) -/

/-- C2: whenever `ServeHTTP` creates a temp file, that file does not exist in
the file system when `ServeHTTP` is done, on every exit path after the
creation and whatever the editor did; the removal is the last call made. -/
theorem C2_temp_file_removed (h : EditHandler) (env : Env) (editor : Editor)
    (req : Request) (fs : FS) (fname : String)
    (hc : Call.TempFile (some fname) ∈ (ServeHTTP h env editor req fs).world.trace) :
    (ServeHTTP h env editor req fs).world.fs fname = none ∧
      (ServeHTTP h env editor req fs).world.trace.getLast? = some (.Remove fname) := by
  obtain ⟨hm, ha, ht⟩ := tempFile_mem_trace h env editor req fs fname hc
  obtain ⟨hfs, mid, htr, _⟩ := serve_after_create h env editor req fs hm ha fname ht
  refine ⟨hfs, ?_⟩
  rw [htr, ← List.cons_append, List.getLast?_append]
  simp

theorem C2_temp_file_removed_witness :
    Call.TempFile (some "/tmp/edit-server-XXXX081") ∈
        (ServeHTTP defaultHandler okEnv bangEditor
          ⟨"POST", extensionHeader, hiBody, 2⟩ emptyFS).world.trace ∧
      (ServeHTTP defaultHandler okEnv bangEditor
          ⟨"POST", extensionHeader, hiBody, 2⟩ emptyFS).world.fs "/tmp/edit-server-XXXX081" = none :=
  ⟨by decide,
   (C2_temp_file_removed defaultHandler okEnv bangEditor
      ⟨"POST", extensionHeader, hiBody, 2⟩ emptyFS "/tmp/edit-server-XXXX081" (by decide)).1⟩

/-- Within the allocation limit: an authorised `POST` whose declared
`Content-Length` is larger than the number of bytes the body holds ends with
status 500 and an empty body, the editor is not invoked, and a temp file
created for the request does not exist afterwards. -/
theorem declared_length_too_large_of_allocated (h : EditHandler) (env : Env)
    (editor : Editor) (req : Request) (fs : FS) (hm : req.Method = "POST")
    (ha : h.authorise req = none)
    (hl : (req.Body.data.length : Int) < req.ContentLength)
    (hmax : req.ContentLength ≤ (env.maxAlloc : Int)) :
    (ServeHTTP h env editor req fs).outcome = .response 500 [] ∧
      (∀ name args, Call.Exec name args ∉ (ServeHTTP h env editor req fs).world.trace) ∧
      (∀ fname, Call.TempFile (some fname) ∈ (ServeHTTP h env editor req fs).world.trace →
        (ServeHTTP h env editor req fs).world.fs fname = none) := by
  have hpos : 0 < req.ContentLength := by omega
  have hshort : ((bodyRead req).length : Int) ≠ req.ContentLength := by
    have : (bodyRead req).length ≤ req.Body.data.length := by
      simp only [bodyRead, List.length_take]
      omega
    omega
  refine ⟨?_, ?_, ?_⟩
  · rcases serve_authorised_cases h env editor req fs hm ha with
      ⟨_, hs⟩ | ⟨fname, _, ⟨hneg, _⟩ | ⟨hc, n, err, s, hw, ⟨_, hs⟩ | ⟨hn, _⟩⟩⟩
    · rw [hs]
    · omega
    · rw [hs]
    · rcases writeContentToFile_cases env req fname (created fs fname) hc.1 hc.2 with
        ⟨_, h1⟩ | ⟨⟨_, h1⟩, _⟩
      · rw [hw] at h1
        simp only [Option.some.injEq, Prod.mk.injEq] at h1
        omega
      · exact absurd h1 hshort
  · intro name args
    rcases serve_authorised_cases h env editor req fs hm ha with
      ⟨_, hs⟩ | ⟨fname, _, ⟨hneg, _⟩ | ⟨hc, n, err, s, hw, ⟨_, hs⟩ | ⟨hn, _⟩⟩⟩
    · simp [hs]
    · omega
    · rcases (writeContentToFile_world env req fname fs n err s hw).2.2 with h1 | h1 <;>
        simp [hs, Remove, h1]
    · rcases writeContentToFile_cases env req fname (created fs fname) hc.1 hc.2 with
        ⟨_, h1⟩ | ⟨⟨_, h1⟩, _⟩
      · rw [hw] at h1
        simp only [Option.some.injEq, Prod.mk.injEq] at h1
        omega
      · exact absurd h1 hshort
  · intro fname hmem
    obtain ⟨_, _, ht⟩ := tempFile_mem_trace h env editor req fs fname hmem
    exact (serve_after_create h env editor req fs hm ha fname ht).1

/-- C5 fails on the code: an authorised `POST` that declares
`Content-Length: 9223372036854775807` and holds the two bytes `hi` makes
`writeContentToFile` ask `make` for a buffer above the allocation limit;
`ServeHTTP` panics after creating the temp file, the deferred removal runs, the
editor is not invoked, and the handler writes no status, so the request does
not end with status 500. -/
theorem C5_huge_length_panics :
    (hiBody.data.length : Int) < 9223372036854775807 ∧
      defaultHandler.authorise ⟨"POST", extensionHeader, hiBody, 9223372036854775807⟩ = none ∧
      (ServeHTTP defaultHandler okEnv noopEditor
        ⟨"POST", extensionHeader, hiBody, 9223372036854775807⟩ emptyFS).outcome = .panic ∧
      (ServeHTTP defaultHandler okEnv noopEditor
        ⟨"POST", extensionHeader, hiBody, 9223372036854775807⟩ emptyFS).outcome ≠
          .response 500 [] ∧
      (ServeHTTP defaultHandler okEnv noopEditor
        ⟨"POST", extensionHeader, hiBody, 9223372036854775807⟩ emptyFS).world.trace =
        [.TempFile (some "/tmp/edit-server-XXXX081"), .Remove "/tmp/edit-server-XXXX081"] :=
  by decide

/-! ## The round trip (C1) -/

/-- C1 fails on the code: an authorised `POST` whose body holds exactly the
declared two bytes `hi`, with the temp file created, nothing limiting the write
and a no-op editor, is answered 500 with an empty body when the one `Read` call
of `writeContentToFile` hands over one byte only, and also when it hands over
both bytes together with `io.EOF`; the file is not written and the editor is
not run, so the body is not returned. -/
theorem C1_single_read_answered_500 :
    (slowBody.data.length : Int) = 2 ∧ (eofBody.data.length : Int) = 2 ∧
      defaultHandler.authorise ⟨"POST", extensionHeader, slowBody, 2⟩ = none ∧
      (ServeHTTP defaultHandler okEnv noopEditor
        ⟨"POST", extensionHeader, slowBody, 2⟩ emptyFS).outcome = .response 500 [] ∧
      (ServeHTTP defaultHandler okEnv noopEditor
        ⟨"POST", extensionHeader, slowBody, 2⟩ emptyFS).world.trace =
        [.TempFile (some "/tmp/edit-server-XXXX081"), .BodyRead 2,
          .Remove "/tmp/edit-server-XXXX081"] ∧
      (ServeHTTP defaultHandler okEnv noopEditor
        ⟨"POST", extensionHeader, eofBody, 2⟩ emptyFS).outcome = .response 500 [] ∧
      (ServeHTTP defaultHandler okEnv noopEditor
        ⟨"POST", extensionHeader, eofBody, 2⟩ emptyFS).world.trace =
        [.TempFile (some "/tmp/edit-server-XXXX081"), .BodyRead 2,
          .Remove "/tmp/edit-server-XXXX081"] ∧
      (ServeHTTP defaultHandler okEnv noopEditor
        ⟨"POST", extensionHeader, slowBody, 2⟩ emptyFS).outcome ≠
          .response 200 slowBody.data :=
  by decide

/-- When the byte count `writeContentToFile` reports equals the declared length
(the test of source line 89 passes), the round trip holds: for an authorised
`POST` whose body holds exactly the declared bytes and an editor that, invoked
as the handler invokes it, turns readable contents `c` of the temp file into
readable contents `f c`, the answer is status 200 with body
`f (request body)`. -/
theorem round_trip_of_write_ok (h : EditHandler) (env : Env) (editor : Editor)
    (req : Request) (fs : FS) (f : List Byte → List Byte) (fname : String)
    (n : Nat) (err : Bool) (s : World)
    (hm : req.Method = "POST") (ha : h.authorise req = none)
    (hlen : (req.Body.data.length : Int) = req.ContentLength)
    (ht : env.tempName = some fname)
    (hw : writeContentToFile env req fname (created fs fname) = some (n, err, s))
    (hn : (n : Int) = req.ContentLength)
    (hed : ∀ name args, name :: args = Split h.EditorCmd ' ' ++ [fname] →
      ∀ fs0 c, fs0 fname = some ⟨c, true⟩ →
        (editor name args fs0).1 fname = some ⟨f c, true⟩) :
    (ServeHTTP h env editor req fs).outcome = .response 200 (f req.Body.data) ∧
      (f = id → (ServeHTTP h env editor req fs).outcome = .response 200 req.Body.data) := by
  have hc := writeContentToFile_some_range env req fname (created fs fname) _ hw
  have hfile : s.fs fname = some ⟨req.Body.data, true⟩ := by
    rcases writeContentToFile_cases env req fname (created fs fname) hc.1 hc.2 with
      ⟨_, h1⟩ | ⟨⟨_, hfull⟩, h1⟩
    · rw [hw] at h1
      simp only [Option.some.injEq, Prod.mk.injEq] at h1
      obtain ⟨h0, _, hs⟩ := h1
      have hnil : req.Body.data = [] := List.length_eq_zero.mp (by omega)
      rw [hs, hnil]
      simp [created]
    · rw [hw] at h1
      simp only [Option.some.injEq, Prod.mk.injEq] at h1
      obtain ⟨hcount, _, hs⟩ := h1
      have hbr : bodyRead req = req.Body.data := by
        have hl : (bodyRead req).length = req.Body.data.length := by omega
        simp only [bodyRead, List.length_take] at hl
        simp only [bodyRead]
        apply List.take_of_length_le
        omega
      have hstored : (bodyRead req).take env.writeCap = bodyRead req := by
        have hl : ((bodyRead req).take env.writeCap).length = (bodyRead req).length := by
          omega
        simp only [List.length_take] at hl
        apply List.take_of_length_le
        omega
      rw [hs, hstored, hbr]
      simp
  have hmain : (ServeHTTP h env editor req fs).outcome = .response 200 (f req.Body.data) := by
    rcases serve_authorised_cases h env editor req fs hm ha with
      ⟨ht0, _⟩ | ⟨f0, ht0, ⟨hneg, _⟩ | ⟨_, n1, err1, s1, hw1, hrest⟩⟩
    · rw [ht] at ht0
      exact absurd ht0 (by simp)
    · rw [ht] at ht0
      obtain rfl : fname = f0 := Option.some.inj ht0
      omega
    · rw [ht] at ht0
      obtain rfl : fname = f0 := Option.some.inj ht0
      rw [hw] at hw1
      simp only [Option.some.injEq, Prod.mk.injEq] at hw1
      obtain ⟨rfl, rfl, rfl⟩ := hw1
      rcases hrest with ⟨hne, _⟩ | ⟨_, name, args, hsplit, _, hserve⟩
      · exact absurd hn hne
      · have hafter := hed name args hsplit s.fs req.Body.data hfile
        rw [hserve, finish_eq]
        simp [hafter]
  refine ⟨hmain, ?_⟩
  intro hid
  rw [hmain, hid]
  rfl

/-! ## The editor's result (C6) -/

/-- C6: two runs of `ServeHTTP` on the same request, handler, operating-system
answers and file system, with editors that may report any result (exit status
zero or nonzero, or failure to launch) and that leave the temp file in the
same state after the editor step, end with the same status and body; when the
editor step is reached the answer is the one fixed by the read-back of the
temp file alone. -/
theorem C6_editor_result_not_surfaced (h : EditHandler) (env : Env)
    (ed1 ed2 : Editor) (req : Request) (fs : FS)
    (hsame : ∀ a, ServeHTTP.prepare h env req fs = .inr a →
      (ed1 a.name a.args a.world.fs).1 a.fname = (ed2 a.name a.args a.world.fs).1 a.fname) :
    (ServeHTTP h env ed1 req fs).outcome = (ServeHTTP h env ed2 req fs).outcome ∧
      (∀ a, ServeHTTP.prepare h env req fs = .inr a →
        (ServeHTTP h env ed1 req fs).outcome =
          answerOf (ReadFile a.fname (Run ed1 a.name a.args a.world).2).1) := by
  have hback : ∀ (ed : Editor) (a : AtEditor),
      (ReadFile a.fname (Run ed a.name a.args a.world).2).1 =
        match (ed a.name a.args a.world.fs).1 a.fname with
        | some file => if file.readable then some file.content else none
        | none => none := by
    intro ed a
    simp only [ReadFile, Run]
    cases hf : (ed a.name a.args a.world.fs).1 a.fname with
    | none => rfl
    | some file => cases hr : file.readable <;> simp [hr]
  cases hp : ServeHTTP.prepare h env req fs with
  | inl r => exact ⟨by simp [ServeHTTP, hp], fun a ha => by simp at ha⟩
  | inr a =>
    have h12 := hsame a hp
    refine ⟨?_, ?_⟩
    · simp only [ServeHTTP, hp, finish_outcome, hback, h12]
    · intro b hb
      obtain rfl : a = b := by simpa using hb
      simp only [ServeHTTP, hp, finish_outcome]

theorem C6_editor_result_not_surfaced_witness :
    (noopEditor "gvim" ["-f", "/tmp/edit-server-XXXX081"] emptyFS).2 ≠
        (missingEditor "gvim" ["-f", "/tmp/edit-server-XXXX081"] emptyFS).2 ∧
      (ServeHTTP defaultHandler okEnv noopEditor
          ⟨"POST", extensionHeader, hiBody, 2⟩ emptyFS).outcome =
        (ServeHTTP defaultHandler okEnv missingEditor
          ⟨"POST", extensionHeader, hiBody, 2⟩ emptyFS).outcome :=
  ⟨by decide,
   (C6_editor_result_not_surfaced defaultHandler okEnv noopEditor missingEditor
      ⟨"POST", extensionHeader, hiBody, 2⟩ emptyFS (fun _ _ => rfl)).1⟩

/-! ## The editor invocation (C7) -/

/-- C7 as stated fails: with the editor command `gvim  -f` (two spaces) the
child process gets the leading arguments `""` and `-f` before the path, while
the whitespace-delimited words after the program name are just `-f`. -/
theorem C7_counterexample_double_space :
    Call.Exec "gvim" ["", "-f", "/tmp/edit-server-XXXX081"] ∈
        (ServeHTTP ⟨true, "gvim  -f"⟩ okEnv noopEditor
          ⟨"POST", extensionHeader, hiBody, 2⟩ emptyFS).world.trace ∧
      specWords "gvim  -f" = ["gvim", "-f"] ∧
      ("gvim" :: ["", "-f", "/tmp/edit-server-XXXX081"] : List String) ≠
        specWords "gvim  -f" ++ ["/tmp/edit-server-XXXX081"] :=
  ⟨by decide, by decide, by decide⟩

/-- C7, amended: the child process `ServeHTTP` invokes has as program name the
first and as leading arguments the remaining pieces of the command string cut
at every single space character, in their order (the pieces contain no space
and, joined by single spaces, give the command string back, and they are the
only such pieces), and as final argument the path of the temp file; the path
is always the last argument.  When the command string consists of nonempty
words free of white space that are separated by single spaces, the pieces are
its whitespace-delimited words. -/
theorem C7_editor_invocation (h : EditHandler) (env : Env) (editor : Editor)
    (req : Request) (fs : FS) (name : String) (args : List String)
    (hx : Call.Exec name args ∈ (ServeHTTP h env editor req fs).world.trace) :
    ∃ fname lead,
      Call.TempFile (some fname) ∈ (ServeHTTP h env editor req fs).world.trace ∧
      args = lead ++ [fname] ∧ args.getLast? = some fname ∧
      Join (name :: lead) " " = h.EditorCmd ∧
      (∀ w ∈ name :: lead, ' ' ∉ w.data) ∧
      (∀ ws, ws ≠ [] → (∀ w ∈ ws, ' ' ∉ w.data) → Join ws " " = h.EditorCmd →
        name :: lead = ws) ∧
      (∀ ws, ws ≠ [] → (∀ w ∈ ws, w ≠ "" ∧ ∀ c ∈ w.data, c.isWhitespace = false) →
        Join ws " " = h.EditorCmd → name :: lead = specWords h.EditorCmd) := by
  obtain ⟨fname, _, hmem, hsplit⟩ := exec_mem_trace h env editor req fs name args hx
  cases hs : Split h.EditorCmd ' ' with
  | nil =>
    have := splitChars_ne_nil (fun c => c == ' ') h.EditorCmd.data
    simp [Split] at hs
    exact absurd hs this
  | cons p0 lead =>
    rw [hs, List.cons_append] at hsplit
    obtain ⟨rfl, rfl⟩ := List.cons.inj hsplit
    have hpieces : name :: lead = Split h.EditorCmd ' ' := hs.symm
    refine ⟨fname, lead, hmem, rfl, by simp, ?_, ?_, ?_, ?_⟩
    · rw [hpieces]
      exact join_split h.EditorCmd
    · rw [hpieces]
      exact split_free h.EditorCmd
    · intro ws hne hfree hjoin
      rw [hpieces, ← hjoin]
      exact split_join ws hne hfree
    · intro ws hne hfree hjoin
      have hfree1 : ∀ w ∈ ws, ' ' ∉ w.data := by
        intro w hw hsp
        have := (hfree w hw).2 ' ' hsp
        exact absurd this (by decide)
      rw [hpieces, ← hjoin, split_join ws hne hfree1, specWords_join ws hfree hne]

theorem C7_editor_invocation_witness :
    Call.Exec "gvim" ["-f", "/tmp/edit-server-XXXX081"] ∈
        (ServeHTTP defaultHandler okEnv noopEditor
          ⟨"POST", extensionHeader, hiBody, 2⟩ emptyFS).world.trace ∧
      ∃ fname lead, ["-f", "/tmp/edit-server-XXXX081"] = lead ++ [fname] ∧
        Join ("gvim" :: lead) " " = "gvim -f" :=
  ⟨by decide,
   (C7_editor_invocation defaultHandler okEnv noopEditor
      ⟨"POST", extensionHeader, hiBody, 2⟩ emptyFS "gvim"
      ["-f", "/tmp/edit-server-XXXX081"] (by decide)).elim
    (fun fname hf => hf.elim (fun lead hl => ⟨fname, lead, hl.2.1, hl.2.2.2.1⟩))⟩

/-! ## Panics and the failure statuses (C8, C9) -/

/-- C8 fails on the code: a `POST` with unknown body length (declared length
-1) that passes the authorisation makes `writeContentToFile` allocate a
buffer of negative length; `ServeHTTP` panics after creating the temp file, the
deferred removal runs, and the handler produces no response. -/
theorem C8_negative_length_panics :
    chunkedRequest.ContentLength = -1 ∧
      writeContentToFile okEnv chunkedRequest "/tmp/edit-server-XXXX081"
        (created emptyFS "/tmp/edit-server-XXXX081") = none ∧
      (ServeHTTP defaultHandler okEnv noopEditor chunkedRequest emptyFS).outcome = .panic ∧
      (ServeHTTP defaultHandler okEnv noopEditor chunkedRequest emptyFS).world.trace =
        [.TempFile (some "/tmp/edit-server-XXXX081"), .Remove "/tmp/edit-server-XXXX081"] :=
  ⟨rfl, rfl, by decide, by decide⟩

/-- C9 fails on the code: for an authorised `POST` with declared length -1 the
temp file is created and no byte is written to it, so the byte count (0)
differs from the declared length, yet the answer is neither status 500 nor
status 200: the handler panics. -/
theorem C9_negative_length_not_answered :
    (⟨"POST", noHeader, hiBody, -1⟩ : Request).Method = "POST" ∧
      openHandler.authorise ⟨"POST", noHeader, hiBody, -1⟩ = none ∧
      (ServeHTTP openHandler okEnv noopEditor ⟨"POST", noHeader, hiBody, -1⟩ emptyFS).world.trace =
        [.TempFile (some "/tmp/edit-server-XXXX081"), .Remove "/tmp/edit-server-XXXX081"] ∧
      (ServeHTTP openHandler okEnv noopEditor ⟨"POST", noHeader, hiBody, -1⟩ emptyFS).outcome ≠
        .response 500 [] ∧
      (ServeHTTP openHandler okEnv noopEditor ⟨"POST", noHeader, hiBody, -1⟩ emptyFS).outcome =
        .panic :=
  ⟨rfl, by decide, by decide, by decide, by decide⟩

end EditServer
